import Mathlib

/-!
# Verification of the chewy constraint-based scheduler

Shallow embedding of the scheduling core of the `chewy` repository
(`backend/src/scheduling/scheduler.py`, `backend/src/scheduling/or_task_wrapper.py`,
`backend/src/scheduling/utils.py`, `backend/models.py`) together with proofs of the
spec's claims about it.

## Time model

Python `datetime` values in the source are UTC-naive with microsecond resolution.
We embed a datetime as an integer count of microseconds since an epoch placed at a
Monday 00:00, so that Python's `date.weekday()` (0 = Monday) becomes `day % 7`.
A `date` is an integer count of days since the same epoch.  `datetime.date()`
floors to the day, `datetime.combine(d, t)` is `d * usPerDay + t`, and
`datetime.max.time()` / `time.max` is `23:59:59.999999`, i.e. `usPerDay - 1`
microseconds into a day.  Python's `int(td.total_seconds() / 60)` truncates toward
zero, which on integers is `Int.tdiv` by `60'000'000` microseconds.
-/

namespace Chewy

def usPerMin : ℤ := 60000000

def usPerHour : ℤ := 3600000000

def usPerDay : ℤ := 86400000000

/-- `time.max` / `datetime.max.time()` as microseconds into the day. -/
def timeMax : ℤ := usPerDay - 1

/-- `datetime.date()`: floor a datetime to its day index. -/
def dateOf (t : ℤ) : ℤ := t.fdiv usPerDay

/-- `date.weekday()`: 0 = Monday … 6 = Sunday (epoch day 0 is a Monday). -/
def weekday (d : ℤ) : ℤ := d % 7

/-- `datetime.combine(d, t)`: a datetime from a day index and microseconds into the day. -/
def combine (d t : ℤ) : ℤ := d * usPerDay + t

/-- `int((b - a).total_seconds() / 60)`: minute offset, truncated toward zero. -/
def minutesBetween (a b : ℤ) : ℤ := (b - a).tdiv usPerMin

/-! ## Interval utilities (`backend/src/scheduling/utils.py`)

`merge_overlapping_intervals` sorts its argument in place by interval start
(`intervals.sort(key=lambda x: x[0])`, a stable sort) and then folds the sorted
list, coalescing any next interval whose start is `≤` the current end.  We embed
the stable in-place sort as `List.insertionSort` (also stable) and the fold as
`mergeLoop`. -/

/-- The fold of `merge_overlapping_intervals`: `cur` is the
`(current_start, current_end)` pair, the list argument is the remaining sorted
input, and the returned list is `merged_intervals` with the final current pair
appended. -/
def mergeLoop : (ℤ × ℤ) → List (ℤ × ℤ) → List (ℤ × ℤ)
  | cur, [] => [cur]
  | cur, nxt :: rest =>
    if nxt.1 ≤ cur.2 then mergeLoop (cur.1, max cur.2 nxt.2) rest
    else cur :: mergeLoop nxt rest

/-- The ordering key used by `intervals.sort(key=lambda x: x[0])`. -/
def startLE (a b : ℤ × ℤ) : Prop := a.1 ≤ b.1

instance : DecidableRel startLE := fun a b => Int.decLe a.1 b.1

instance : IsTotal (ℤ × ℤ) startLE := ⟨fun a b => Int.le_total a.1 b.1⟩

instance : IsTrans (ℤ × ℤ) startLE := ⟨fun _ _ _ h1 h2 => le_trans h1 h2⟩

/-- The list object that the caller's `intervals` list holds after the call:
the source returns `[]` before sorting when the input is empty, and otherwise
has sorted the caller's list in place (stably, by start). -/
def merge_sort_effect (l : List (ℤ × ℤ)) : List (ℤ × ℤ) :=
  if l = [] then l else List.insertionSort startLE l

/-- `merge_overlapping_intervals` from `backend/src/scheduling/utils.py`. -/
def merge_overlapping_intervals (l : List (ℤ × ℤ)) : List (ℤ × ℤ) :=
  match merge_sort_effect l with
  | [] => []
  | c :: rest => mergeLoop c rest

/-- The set of integer points covered by a list of half-open intervals. -/
def covers (l : List (ℤ × ℤ)) (x : ℤ) : Prop := ∃ p ∈ l, p.1 ≤ x ∧ x < p.2

/-! ### Lemmas about `mergeLoop` -/

theorem mergeLoop_start_le (rest : List (ℤ × ℤ)) :
    ∀ cur : ℤ × ℤ, List.Sorted startLE (cur :: rest) →
      ∀ p ∈ mergeLoop cur rest, cur.1 ≤ p.1 := by
  induction rest with
  | nil =>
    intro cur _ p hp
    simp only [mergeLoop, List.mem_singleton] at hp
    simp [hp]
  | cons nxt rest ih =>
    intro cur hs p hp
    have hcn : startLE cur nxt := (List.sorted_cons.mp hs).1 nxt (by simp)
    have hs2 : List.Sorted startLE (nxt :: rest) := (List.sorted_cons.mp hs).2
    simp only [mergeLoop] at hp
    split at hp
    · have hs3 : List.Sorted startLE ((cur.1, max cur.2 nxt.2) :: rest) := by
        refine List.sorted_cons.mpr ⟨?_, (List.sorted_cons.mp hs2).2⟩
        intro b hb
        exact le_trans hcn ((List.sorted_cons.mp hs2).1 b hb)
      exact ih (cur.1, max cur.2 nxt.2) hs3 p hp
    · rcases List.mem_cons.mp hp with h | h
      · simp [h]
      · exact le_trans hcn (ih nxt hs2 p h)

theorem mergeLoop_sorted (rest : List (ℤ × ℤ)) :
    ∀ cur : ℤ × ℤ, List.Sorted startLE (cur :: rest) →
      List.Sorted startLE (mergeLoop cur rest) := by
  induction rest with
  | nil => intro cur _; simp [mergeLoop]
  | cons nxt rest ih =>
    intro cur hs
    have hcn : startLE cur nxt := (List.sorted_cons.mp hs).1 nxt (by simp)
    have hs2 : List.Sorted startLE (nxt :: rest) := (List.sorted_cons.mp hs).2
    simp only [mergeLoop]
    split
    · have hs3 : List.Sorted startLE ((cur.1, max cur.2 nxt.2) :: rest) := by
        refine List.sorted_cons.mpr ⟨?_, (List.sorted_cons.mp hs2).2⟩
        intro b hb
        exact le_trans hcn ((List.sorted_cons.mp hs2).1 b hb)
      exact ih (cur.1, max cur.2 nxt.2) hs3
    · refine List.sorted_cons.mpr ⟨?_, ih nxt hs2⟩
      intro b hb
      exact le_trans hcn (mergeLoop_start_le rest nxt hs2 b hb)

/-- The output intervals of the merge fold are strictly separated: each one ends
strictly before the next begins (disjoint and non-adjacent), for a start-sorted
input. -/
theorem mergeLoop_separated (rest : List (ℤ × ℤ)) :
    ∀ cur : ℤ × ℤ, List.Sorted startLE (cur :: rest) →
      List.Pairwise (fun a b : ℤ × ℤ => a.2 < b.1) (mergeLoop cur rest) := by
  induction rest with
  | nil => intro cur _; simp [mergeLoop]
  | cons nxt rest ih =>
    intro cur hs
    have hcn : startLE cur nxt := (List.sorted_cons.mp hs).1 nxt (by simp)
    have hs2 : List.Sorted startLE (nxt :: rest) := (List.sorted_cons.mp hs).2
    simp only [mergeLoop]
    split
    · have hs3 : List.Sorted startLE ((cur.1, max cur.2 nxt.2) :: rest) := by
        refine List.sorted_cons.mpr ⟨?_, (List.sorted_cons.mp hs2).2⟩
        intro b hb
        exact le_trans hcn ((List.sorted_cons.mp hs2).1 b hb)
      exact ih (cur.1, max cur.2 nxt.2) hs3
    · rename_i hlt
      refine List.pairwise_cons.mpr ⟨?_, ih nxt hs2⟩
      intro b hb
      have h1 : nxt.1 ≤ b.1 := mergeLoop_start_le rest nxt hs2 b hb
      omega

theorem covers_cons {a : ℤ × ℤ} {l : List (ℤ × ℤ)} {x : ℤ} :
    covers (a :: l) x ↔ (a.1 ≤ x ∧ x < a.2) ∨ covers l x := by
  simp only [covers, List.mem_cons]
  constructor
  · rintro ⟨p, rfl | hp, h1, h2⟩
    · exact Or.inl ⟨h1, h2⟩
    · exact Or.inr ⟨p, hp, h1, h2⟩
  · rintro (⟨h1, h2⟩ | ⟨p, hp, h1, h2⟩)
    · exact ⟨a, Or.inl rfl, h1, h2⟩
    · exact ⟨p, Or.inr hp, h1, h2⟩

theorem mergeLoop_covers (rest : List (ℤ × ℤ)) :
    ∀ cur : ℤ × ℤ, List.Sorted startLE (cur :: rest) →
      ∀ x : ℤ, covers (mergeLoop cur rest) x ↔ covers (cur :: rest) x := by
  induction rest with
  | nil => intro cur _ x; simp [mergeLoop]
  | cons nxt rest ih =>
    intro cur hs x
    have hcn : startLE cur nxt := (List.sorted_cons.mp hs).1 nxt (by simp)
    have hcn2 : cur.1 ≤ nxt.1 := hcn
    have hs2 : List.Sorted startLE (nxt :: rest) := (List.sorted_cons.mp hs).2
    simp only [mergeLoop]
    split
    · rename_i hle
      have hs3 : List.Sorted startLE ((cur.1, max cur.2 nxt.2) :: rest) := by
        refine List.sorted_cons.mpr ⟨?_, (List.sorted_cons.mp hs2).2⟩
        intro b hb
        exact le_trans hcn ((List.sorted_cons.mp hs2).1 b hb)
      rw [ih (cur.1, max cur.2 nxt.2) hs3 x]
      rw [covers_cons, covers_cons, covers_cons]
      simp only [lt_max_iff]
      constructor
      · rintro (⟨h1, h2⟩ | hc)
        · rcases h2 with h | h
          · exact Or.inl ⟨h1, h⟩
          · rcases lt_or_le x cur.2 with h3 | h3
            · exact Or.inl ⟨h1, h3⟩
            · exact Or.inr (Or.inl ⟨by omega, h⟩)
        · exact Or.inr (Or.inr hc)
      · rintro (⟨h1, h2⟩ | ⟨h1, h2⟩ | hc)
        · exact Or.inl ⟨h1, Or.inl h2⟩
        · exact Or.inl ⟨by omega, Or.inr h2⟩
        · exact Or.inr hc
    · rw [covers_cons, covers_cons, covers_cons, ih nxt hs2 x, covers_cons]

theorem covers_perm {l1 l2 : List (ℤ × ℤ)} (h : l1.Perm l2) (x : ℤ) :
    covers l1 x ↔ covers l2 x := by
  simp only [covers]
  constructor
  · rintro ⟨p, hp, h1, h2⟩; exact ⟨p, h.mem_iff.mp hp, h1, h2⟩
  · rintro ⟨p, hp, h1, h2⟩; exact ⟨p, h.mem_iff.mpr hp, h1, h2⟩

/-! ## Data model (`backend/models.py`)

Only the columns the scheduling core reads are embedded.  `content` (a string
used for logging only) is dropped, and the randomly generated UUID primary key
is embedded as a natural number (freshly created rows get id `0`; the claims
never depend on the id of a freshly expanded task). -/

/-- A row of the `tasks` table, restricted to the fields the scheduler reads. -/
structure Task where
  id : ℕ
  duration : ℤ
  due_by : Option ℤ
  time_window_start : Option ℤ
  time_window_end : Option ℤ
  instance_date : Option ℤ
  recurring_event_id : Option ℕ
deriving Repr, DecidableEq, Inhabited

/-- A row of the `calendar_events` table (`end` is called `stop`; `end` is a
Lean keyword). Only non-chewy-managed events reach the scheduler. -/
structure CalendarEvent where
  start : ℤ
  stop : ℤ
deriving Repr, DecidableEq, Inhabited

/-- A row of the `recurring_tasks` table. `recurrence` is the JSON list of
weekday indices (0 = Monday). -/
structure RecurringEvent where
  id : ℕ
  duration : ℤ
  time_window_start : Option ℤ
  time_window_end : Option ℤ
  recurrence : List ℤ
deriving Repr, DecidableEq, Inhabited

/-- The half-open list of day indices `[a, b)`. -/
def dateRange (a b : ℤ) : List ℤ := (List.range (b - a).toNat).map (fun k => a + k)

/-- The inclusive list of day indices `[a, b]` (empty when `b < a`), matching
the `while current_iter_dt.date() <= period_end_dt.date()` loop. -/
def dayRangeIncl (a b : ℤ) : List ℤ :=
  if b < a then [] else (List.range ((b - a).toNat + 1)).map (fun k => a + k)

/-- The task row emitted by `RecurringEvent.create_tasks` for day `d`:
`due_by = datetime.combine(day_iterator, datetime.max.time())`, the window is
copied from the template, `instance_date = d` and `recurring_event_id` is the
template's id.  The fresh UUID is modelled as id `0`. -/
def expandedTask (ev : RecurringEvent) (d : ℤ) : Task :=
  { id := 0
    duration := ev.duration
    due_by := some (combine d timeMax)
    time_window_start := ev.time_window_start
    time_window_end := ev.time_window_end
    instance_date := some d
    recurring_event_id := some ev.id }

/-- `RecurringEvent.create_tasks(start_date, end_date)` from `backend/models.py`:
iterate `day_iterator` from `start_date.date()` while `day_iterator < end_date.date()`
and emit one task per day whose weekday is in the recurrence list. -/
def create_tasks (ev : RecurringEvent) (startDT endDT : ℤ) : List Task :=
  (dateRange (dateOf startDT) (dateOf endDT)).filterMap (fun d =>
    if weekday d ∈ ev.recurrence then some (expandedTask ev d) else none)

/-! ## `ORTaskWrapper` (`backend/src/scheduling/or_task_wrapper.py`)

The wrapper's solver variables are embedded by their domains: `start_var` has
domain `[startLo, startHi]` and `end_var` has domain `[endLo, endHi]`; the
interval variable ties `end = start + duration`, so an assignment is a single
integer (the start minute) per task id.  The `original_master_task_id`
attribute is copied but never read by the scheduler, so it is not modelled. -/

structure ORTask where
  id : ℕ
  duration_min : ℤ
  startLo : ℤ
  startHi : ℤ
  endLo : ℤ
  endHi : ℤ
  due_by_min : Option ℤ
  time_window_start : Option ℤ
  time_window_end : Option ℤ
  instance_date : Option ℤ
deriving Repr, DecidableEq, Inhabited

/-- `self.due_by_min` of `ORTaskWrapper.__init__`: `None` when the task has no
due date, `-1` when it is due before the period start, and otherwise the
truncated minute offset of `due_by` from the period start. -/
def dueMinOf (t : Task) (ps : ℤ) : Option ℤ :=
  match t.due_by with
  | none => none
  | some d => if d < ps then some (-1) else some (minutesBetween ps d)

/-- `ORTaskWrapper.__init__`: domains `start ∈ [0, H − δ]`, `end ∈ [δ, H]`, or the
deliberately empty domain `[1, 0]` when `δ > H`. -/
def mkORTask (t : Task) (ps H : ℤ) : ORTask :=
  if 0 > H - t.duration then
    { id := t.id, duration_min := t.duration, startLo := 1, startHi := 0, endLo := 1,
      endHi := 0, due_by_min := dueMinOf t ps, time_window_start := t.time_window_start,
      time_window_end := t.time_window_end, instance_date := t.instance_date }
  else
    { id := t.id, duration_min := t.duration, startLo := 0, startHi := H - t.duration,
      endLo := t.duration, endHi := H, due_by_min := dueMinOf t ps,
      time_window_start := t.time_window_start, time_window_end := t.time_window_end,
      instance_date := t.instance_date }

/-- `or_tasks_map[task.id] = wrapper`: a keyed insert that replaces an existing
entry with the same id in place and otherwise appends. -/
def insertTask : List ORTask → ORTask → List ORTask
  | [], t => [t]
  | h :: r, t => if h.id = t.id then t :: r else h :: insertTask r t

/-- The values of `or_tasks_map` after wrapping every task to schedule. -/
def buildTasks (ts : List Task) (ps H : ℤ) : List ORTask :=
  ts.foldl (fun acc t => insertTask acc (mkORTask t ps H)) []

/-! ## Forbidden segments (`schedule_tasks_with_or_tools`, steps 3) -/

/-- Step 3a: calendar events clipped to the scheduling period, converted to
minute offsets, kept when the clipped duration is positive. -/
def eventSegments (events : List CalendarEvent) (ps pe : ℤ) : List (ℤ × ℤ) :=
  events.flatMap (fun ev =>
    let s := max ev.start ps
    let e := min ev.stop pe
    if s < e then
      let sm := minutesBetween ps s
      let em := minutesBetween ps e
      if em - sm > 0 then [(sm, em)] else []
    else [])

/-- Step 3b, one day of the loop: the whole (clipped) day for weekends, and the
pre-work / post-work stretches for weekdays.  Note the day end is
`datetime.combine(date, time.max)`, i.e. 23:59:59.999999. -/
def daySegs (ps pe wsh weh d : ℤ) : List (ℤ × ℤ) :=
  let dayStart := combine d 0
  let dayEnd := combine d timeMax
  let s0 := max dayStart ps
  let e0 := min dayEnd pe
  if s0 ≥ e0 then []
  else if weekday d ≥ 5 then
    let sm := minutesBetween ps s0
    let em := minutesBetween ps e0
    if em > sm then [(sm, em)] else []
  else
    let workS := combine d (wsh * usPerHour)
    let workE := combine d (weh * usPerHour)
    let pre :=
      let e1 := min workS e0
      if e1 > s0 then
        let sm := minutesBetween ps s0
        let em := minutesBetween ps e1
        if em > sm then [(sm, em)] else []
      else []
    let post :=
      let s2 := max workE s0
      if e0 > s2 then
        let sm := minutesBetween ps s2
        let em := minutesBetween ps e0
        if em > sm then [(sm, em)] else []
      else []
    pre ++ post

/-- Step 3b: the whole day loop, from `period_start.date()` to
`period_end.date()` inclusive. -/
def nonWorkSegments (ps pe wsh weh : ℤ) : List (ℤ × ℤ) :=
  (dayRangeIncl (dateOf ps) (dateOf pe)).flatMap (daySegs ps pe wsh weh)

/-! ## Dependency constraints (step 6) -/

def lookupTask (tasks : List ORTask) (i : ℕ) : Option ORTask :=
  tasks.find? (fun t => t.id == i)

/-- The `(A, B)` pairs for which `start(A) ≥ end(B)` is added: an edge contributes
iff both its task and its dependency are keys of `or_tasks_map`. -/
def buildDeps (dmap : List (ℕ × List ℕ)) (tasks : List ORTask) : List (ORTask × ORTask) :=
  dmap.flatMap (fun entry =>
    match lookupTask tasks entry.1 with
    | none => []
    | some ta => entry.2.filterMap (fun depId =>
        (lookupTask tasks depId).map (fun tb => (ta, tb))))

/-! ## Due-date marking (step 5) -/

/-- True when some task triggers `force_infeasibility` in step 5:
`due_by_min < 0` (due before the period) or `due_by_min < duration`. -/
def dueForcedFlag (tasks : List ORTask) : Bool :=
  tasks.any (fun t =>
    match t.due_by_min with
    | none => false
    | some dm => decide (dm < 0) || decide (dm < t.duration_min))

/-! ## Time-window constraints (step 7) -/

/-- Outcome of step 7 for one task: no complete window pair (no constraint),
`force_infeasibility` plus `continue`, or a non-empty list of candidate slots
bound by an exactly-one choice. -/
inductive WinRes where
  | noWindow : WinRes
  | forced : WinRes
  | slots : List (ℤ × ℤ) → WinRes
deriving Repr, DecidableEq, Inhabited

def WinRes.isForced : WinRes → Bool
  | .forced => true
  | _ => false

/-- The candidate slot (empty or singleton) that step 7 computes for a windowed
task on day `d`: combine the window with the day, shift the window end by one
day when it crosses midnight, clip to the period, intersect with the work
envelope (using the next day's work hours when the window crosses midnight into
a weekday), and keep the slot if it is non-empty and at least `dur` minutes
long. -/
def slotForDay (ps pe wsh weh dur ws we d : ℤ) : List (ℤ × ℤ) :=
  let absS := combine d ws
  let absE0 := combine d we
  let absE := if absE0 < absS then absE0 + usPerDay else absE0
  let winS1 := max absS ps
  let winE1 := min absE pe
  let dayWorkS := combine d (wsh * usPerHour)
  let dayWorkE := combine d (weh * usPerHour)
  let winSf0 := max winS1 dayWorkS
  let sf : ℤ × ℤ :=
    if dateOf absE > d then
      let nextD := dateOf absE
      if weekday nextD < 5 then
        let nextWorkS := combine nextD (wsh * usPerHour)
        let nextWorkE := combine nextD (weh * usPerHour)
        (max winSf0 (if dateOf winSf0 > d then nextWorkS else winSf0), min winE1 nextWorkE)
      else (winSf0, min winE1 dayWorkE)
    else (winSf0, min winE1 dayWorkE)
  if sf.2 > sf.1 ∧ sf.2 - sf.1 ≥ dur * usPerMin then
    [(minutesBetween ps sf.1, minutesBetween ps sf.2)]
  else []

/-- Step 7 for one task.  A task with an `instance_date` is checked on that date
only (it must lie within the period and be a weekday, else infeasibility is
forced); a generic windowed task is checked on every weekday of the period
(none: forced infeasibility). An empty candidate-slot list forces
infeasibility. -/
def windowRes (ps pe wsh weh : ℤ) (t : ORTask) : WinRes :=
  match t.time_window_start, t.time_window_end with
  | some ws, some we =>
    match t.instance_date with
    | some idate =>
      if dateOf ps ≤ idate ∧ idate ≤ dateOf pe ∧ weekday idate < 5 then
        match slotForDay ps pe wsh weh t.duration_min ws we idate with
        | [] => .forced
        | l => .slots l
      else .forced
    | none =>
      let days := (dayRangeIncl (dateOf ps) (dateOf pe)).filter
        (fun d => decide (weekday d < 5))
      if days.isEmpty then .forced
      else
        match days.flatMap (slotForDay ps pe wsh weh t.duration_min ws we) with
        | [] => .forced
        | l => .slots l
  | _, _ => .noWindow

def windowForcedFlag (ps pe wsh weh : ℤ) (tasks : List ORTask) : Bool :=
  tasks.any (fun t => (windowRes ps pe wsh weh t).isForced)

def windowConstraints (ps pe wsh weh : ℤ) (tasks : List ORTask) :
    List (ORTask × List (ℤ × ℤ)) :=
  tasks.filterMap (fun t =>
    match windowRes ps pe wsh weh t with
    | .slots l => some (t, l)
    | _ => none)

/-! ## The constraint model -/

/-- The CP-SAT model built by `schedule_tasks_with_or_tools` before solving.
`forcedInfeasible` records whether any `force_infeasibility(model)` call
happened (which adds a contradictory pair of constraints, so no assignment can
satisfy the model). -/
structure BuiltModel where
  ps : ℤ
  H : ℤ
  tasks : List ORTask
  zones : List (ℤ × ℤ)
  deps : List (ORTask × ORTask)
  windows : List (ORTask × List (ℤ × ℤ))
  forcedInfeasible : Bool
deriving Repr, DecidableEq, Inhabited

/-- Steps 1–7 of `schedule_tasks_with_or_tools`: validate the horizon, wrap the
tasks, build and merge the forbidden segments (keeping only positive-length
zones as fixed intervals), collect dependency pairs, due-date marking and
window constraints.  The two `raise ValueError` guards are the `.error`
results. -/
def buildModel (ts : List Task) (events : List CalendarEvent)
    (dmap : List (ℕ × List ℕ)) (ps pe wsh weh : ℤ) : Except String BuiltModel :=
  if ps ≥ pe then .error "Period start must be before period end"
  else
    let H := minutesBetween ps pe
    if H ≤ 0 then .error "Scheduling period has zero or negative duration"
    else
      let tasks := buildTasks ts ps H
      let raw := eventSegments events ps pe ++ nonWorkSegments ps pe wsh weh
      let zones := (merge_overlapping_intervals raw).filter (fun z => z.2 - z.1 > 0)
      .ok { ps := ps, H := H, tasks := tasks, zones := zones,
            deps := buildDeps dmap tasks,
            windows := windowConstraints ps pe wsh weh tasks,
            forcedInfeasible :=
              dueForcedFlag tasks || windowForcedFlag ps pe wsh weh tasks }

/-- The due-date constraint of step 5 for one task, given the solver variable
assignment: when neither forcing branch fires, `end(T) ≤ due_by_min`. -/
def dueOK (t : ORTask) (σ : ℕ → ℤ) : Prop :=
  ∀ dm ∈ t.due_by_min, ¬ dm < 0 → ¬ dm < t.duration_min →
    σ t.id + t.duration_min ≤ dm

/-- An assignment of start minutes to task ids satisfies the built model: no
forced infeasibility, all variable domains respected, no overlap with any
forbidden zone or between distinct tasks, every dependency pair ordered, every
due-date constraint met, and every windowed task placed inside one of its
candidate slots. -/
def Sat (m : BuiltModel) (σ : ℕ → ℤ) : Prop :=
  m.forcedInfeasible = false ∧
  (∀ t ∈ m.tasks,
    t.startLo ≤ σ t.id ∧ σ t.id ≤ t.startHi ∧
    t.endLo ≤ σ t.id + t.duration_min ∧ σ t.id + t.duration_min ≤ t.endHi) ∧
  (∀ t ∈ m.tasks, ∀ z ∈ m.zones,
    σ t.id + t.duration_min ≤ z.1 ∨ z.2 ≤ σ t.id) ∧
  (∀ t1 ∈ m.tasks, ∀ t2 ∈ m.tasks, t1.id ≠ t2.id →
    σ t1.id + t1.duration_min ≤ σ t2.id ∨ σ t2.id + t2.duration_min ≤ σ t1.id) ∧
  (∀ p ∈ m.deps, σ p.2.id + p.2.duration_min ≤ σ p.1.id) ∧
  (∀ t ∈ m.tasks, dueOK t σ) ∧
  (∀ w ∈ m.windows, ∃ s ∈ w.2, s.1 ≤ σ w.1.id ∧ σ w.1.id + w.1.duration_min ≤ s.2)

instance (t : ORTask) (σ : ℕ → ℤ) : Decidable (dueOK t σ) := by
  unfold dueOK; infer_instance

instance (m : BuiltModel) (σ : ℕ → ℤ) : Decidable (Sat m σ) := by
  unfold Sat; infer_instance

/-! ## Result decoding (steps 8–9) -/

/-- The datetime at which a task starts under an assignment:
`period_start + timedelta(minutes=solver.Value(start_var))`. -/
def decStart (m : BuiltModel) (σ : ℕ → ℤ) (t : ORTask) : ℤ :=
  m.ps + σ t.id * usPerMin

/-- The datetime at which a task ends:
`scheduled_start + timedelta(minutes=duration)`. -/
def decEnd (m : BuiltModel) (σ : ℕ → ℤ) (t : ORTask) : ℤ :=
  decStart m σ t + t.duration_min * usPerMin

/-- One entry of the returned schedule (`end` is called `stop`). -/
structure Assignment where
  task_id : ℕ
  start : ℤ
  stop : ℤ
deriving Repr, DecidableEq, Inhabited

/-- The decoded result list, sorted by start time (step 9). -/
def decodeResults (m : BuiltModel) (σ : ℕ → ℤ) : List Assignment :=
  List.insertionSort (fun a b => a.start ≤ b.start)
    (m.tasks.map (fun t => ⟨t.id, decStart m σ t, decEnd m σ t⟩))

/-- The CP-SAT solver statuses as returned by `solver.Solve(model)` together
with `solver.StatusName(status)`.  A solve that hits the
`max_time_in_seconds` wall-clock bound without having found a solution
returns `UNKNOWN`. -/
inductive CpStatus where
  | optimal
  | feasible
  | infeasible
  | unknown
  | modelInvalid
deriving Repr, DecidableEq, Inhabited

def statusName : CpStatus → String
  | .optimal => "OPTIMAL"
  | .feasible => "FEASIBLE"
  | .infeasible => "INFEASIBLE"
  | .unknown => "UNKNOWN"
  | .modelInvalid => "MODEL_INVALID"

/-- Step 9 of `schedule_tasks_with_or_tools`: on `OPTIMAL` or `FEASIBLE` return
the decoded sorted assignments with message `"Feasible"`; on `INFEASIBLE`
return `(None, "Infeasible")`; on any other status return
`(None, f"Solver status: {solver.StatusName(status)}")`. -/
def solveResult (m : BuiltModel) (st : CpStatus) (σ : ℕ → ℤ) :
    Option (List Assignment) × String :=
  match st with
  | .optimal => (some (decodeResults m σ), "Feasible")
  | .feasible => (some (decodeResults m σ), "Feasible")
  | .infeasible => (none, "Infeasible")
  | s => (none, "Solver status: " ++ statusName s)

/-- `generate_schedule` returns the pair produced by
`schedule_tasks_with_or_tools` unchanged.  The database fetches and the
recurrence expansion are I/O and appear here as the already-built model; the
solver call is the opaque `st`/`σ` pair (`σ` being the solution values when
`st` is `OPTIMAL`/`FEASIBLE`). -/
def generate_schedule (m : BuiltModel) (st : CpStatus) (σ : ℕ → ℤ) :
    Option (List Assignment) × String :=
  solveResult m st σ

/-! ## Helper lemmas -/

theorem mkORTask_id (t : Task) (ps H : ℤ) : (mkORTask t ps H).id = t.id := by
  unfold mkORTask; split <;> rfl

theorem mkORTask_duration (t : Task) (ps H : ℤ) :
    (mkORTask t ps H).duration_min = t.duration := by
  unfold mkORTask; split <;> rfl

theorem mkORTask_startLo_nonneg (t : Task) (ps H : ℤ) :
    0 ≤ (mkORTask t ps H).startLo := by
  unfold mkORTask; split <;> norm_num

theorem mkORTask_endHi_le (t : Task) (ps H : ℤ) (hH : 0 ≤ H) :
    (mkORTask t ps H).endHi ≤ H := by
  unfold mkORTask; split
  · simpa using hH
  · simp

theorem mkORTask_due (t : Task) (ps H : ℤ) :
    (mkORTask t ps H).due_by_min = dueMinOf t ps := by
  unfold mkORTask; split <;> rfl

theorem dueMinOf_early {t : Task} {ps d : ℤ} (hd : t.due_by = some d)
    (hlt : d < ps) : dueMinOf t ps = some (-1) := by
  unfold dueMinOf; rw [hd]; simp [if_pos hlt]

theorem dueMinOf_late {t : Task} {ps d : ℤ} (hd : t.due_by = some d)
    (hge : ps ≤ d) : dueMinOf t ps = some (minutesBetween ps d) := by
  unfold dueMinOf; rw [hd]; simp [if_neg (not_lt.mpr hge)]

theorem minutesBetween_nonneg {a b : ℤ} (h : a ≤ b) : 0 ≤ minutesBetween a b :=
  Int.tdiv_nonneg (by omega) (by norm_num [usPerMin])

theorem minutesBetween_mul_le {a b : ℤ} (h : a ≤ b) :
    minutesBetween a b * usPerMin ≤ b - a := by
  unfold minutesBetween
  rw [Int.tdiv_eq_ediv (by omega) (by norm_num [usPerMin])]
  exact Int.ediv_mul_le _ (by norm_num [usPerMin])

theorem mem_insertTask {l : List ORTask} {t y : ORTask} (h : y ∈ insertTask l t) :
    y = t ∨ y ∈ l := by
  induction l with
  | nil => simp [insertTask] at h; exact Or.inl h
  | cons h0 r ih =>
    simp only [insertTask] at h
    split at h
    · rcases List.mem_cons.mp h with rfl | hy
      · exact Or.inl rfl
      · exact Or.inr (List.mem_cons_of_mem _ hy)
    · rcases List.mem_cons.mp h with rfl | hy
      · exact Or.inr (List.mem_cons_self _ _)
      · rcases ih hy with h1 | h1
        · exact Or.inl h1
        · exact Or.inr (List.mem_cons_of_mem _ h1)

theorem insertTask_nodup {l : List ORTask} {t : ORTask}
    (h : (l.map ORTask.id).Nodup) : ((insertTask l t).map ORTask.id).Nodup := by
  induction l with
  | nil => simp [insertTask]
  | cons h0 r ih =>
    simp only [List.map_cons, List.nodup_cons] at h
    simp only [insertTask]
    split
    · rename_i heq
      simp only [List.map_cons, List.nodup_cons]
      exact ⟨by rw [← heq]; exact h.1, h.2⟩
    · rename_i hne
      simp only [List.map_cons, List.nodup_cons]
      refine ⟨?_, ih h.2⟩
      intro hmem
      rcases List.mem_map.mp hmem with ⟨y, hy, hyid⟩
      rcases mem_insertTask hy with rfl | hy2
      · exact hne hyid.symm
      · exact h.1 (List.mem_map.mpr ⟨y, hy2, hyid⟩)

theorem mem_foldl_insertTask {l : List ORTask} :
    ∀ {acc : List ORTask} {y : ORTask}, y ∈ l.foldl insertTask acc →
      y ∈ acc ∨ y ∈ l := by
  induction l with
  | nil => intro acc y h; exact Or.inl h
  | cons t r ih =>
    intro acc y h
    rcases ih h with h1 | h1
    · rcases mem_insertTask h1 with rfl | h2
      · exact Or.inr (List.mem_cons_self _ _)
      · exact Or.inl h2
    · exact Or.inr (List.mem_cons_of_mem _ h1)

theorem foldl_insertTask_nodup {l : List ORTask} :
    ∀ {acc : List ORTask}, (acc.map ORTask.id).Nodup →
      ((l.foldl insertTask acc).map ORTask.id).Nodup := by
  induction l with
  | nil => intro acc h; exact h
  | cons t r ih => intro acc h; exact ih (insertTask_nodup h)

/-- Every wrapper in `or_tasks_map` comes from wrapping some input task. -/
theorem mem_buildTasks {ts : List Task} {ps H : ℤ} {ot : ORTask}
    (h : ot ∈ buildTasks ts ps H) : ∃ t0 ∈ ts, ot = mkORTask t0 ps H := by
  unfold buildTasks at h
  rw [← List.foldl_map (fun t => mkORTask t ps H) insertTask] at h
  rcases mem_foldl_insertTask h with h1 | h1
  · simp at h1
  · rcases List.mem_map.mp h1 with ⟨t0, ht0, rfl⟩
    exact ⟨t0, ht0, rfl⟩

/-- The keys of `or_tasks_map` are distinct. -/
theorem buildTasks_nodup (ts : List Task) (ps H : ℤ) :
    ((buildTasks ts ps H).map ORTask.id).Nodup := by
  unfold buildTasks
  rw [← List.foldl_map (fun t => mkORTask t ps H) insertTask]
  exact foldl_insertTask_nodup (by simp)

theorem insertTask_of_not_mem {l : List ORTask} {t : ORTask}
    (h : t.id ∉ l.map ORTask.id) : insertTask l t = l ++ [t] := by
  induction l with
  | nil => rfl
  | cons h0 r ih =>
    simp only [List.map_cons, List.mem_cons] at h
    push_neg at h
    have hne : ¬ h0.id = t.id := fun he => h.1 he.symm
    simp only [insertTask, if_neg hne, List.cons_append, List.cons.injEq, true_and]
    exact ih h.2

theorem foldl_insertTask_append {l : List ORTask} :
    ∀ {acc : List ORTask}, ((acc ++ l).map ORTask.id).Nodup →
      l.foldl insertTask acc = acc ++ l := by
  induction l with
  | nil => intro acc _; simp
  | cons t r ih =>
    intro acc h
    have h2 : (((acc ++ [t]) ++ r).map ORTask.id).Nodup := by
      simpa [List.append_assoc] using h
    have hnin : t.id ∉ acc.map ORTask.id := by
      intro hin
      have h3 : ((acc ++ [t]).map ORTask.id).Nodup := by
        rw [List.map_append, List.nodup_append] at h2
        exact h2.1
      rw [List.map_append, List.nodup_append] at h3
      exact h3.2.2 hin (by simp)
    calc (t :: r).foldl insertTask acc = r.foldl insertTask (insertTask acc t) := rfl
      _ = r.foldl insertTask (acc ++ [t]) := by rw [insertTask_of_not_mem hnin]
      _ = (acc ++ [t]) ++ r := ih h2
      _ = acc ++ t :: r := by simp

/-- With distinct task ids (the database primary keys), the insertion order of
`or_tasks_map` is the input order and no wrapper is replaced. -/
theorem buildTasks_eq_map {ts : List Task} (ps H : ℤ)
    (hnd : (ts.map Task.id).Nodup) :
    buildTasks ts ps H = ts.map (fun t => mkORTask t ps H) := by
  unfold buildTasks
  rw [← List.foldl_map (fun t => mkORTask t ps H) insertTask]
  refine foldl_insertTask_append ?_
  simp only [List.nil_append, List.map_map]
  have : (ORTask.id ∘ fun t => mkORTask t ps H) = Task.id := by
    funext t; simp [Function.comp, mkORTask_id]
  rw [this]
  exact hnd

/-- Inversion of a successful model build. -/
theorem buildModel_ok {ts : List Task} {events : List CalendarEvent}
    {dmap : List (ℕ × List ℕ)} {ps pe wsh weh : ℤ} {m : BuiltModel}
    (hm : buildModel ts events dmap ps pe wsh weh = Except.ok m) :
    ps < pe ∧ 0 < minutesBetween ps pe ∧ m.ps = ps ∧
    m.H = minutesBetween ps pe ∧
    m.tasks = buildTasks ts ps (minutesBetween ps pe) ∧
    m.deps = buildDeps dmap m.tasks ∧
    m.windows = windowConstraints ps pe wsh weh m.tasks ∧
    m.forcedInfeasible =
      (dueForcedFlag m.tasks || windowForcedFlag ps pe wsh weh m.tasks) := by
  simp only [buildModel] at hm
  split at hm
  · cases hm
  · rename_i h1
    split at hm
    · cases hm
    · rename_i h2
      injection hm with hm
      subst hm
      refine ⟨by omega, by omega, rfl, rfl, rfl, rfl, rfl, rfl⟩

theorem lookupTask_mem {tasks : List ORTask} {i : ℕ} {t : ORTask}
    (h : lookupTask tasks i = some t) : t ∈ tasks ∧ t.id = i := by
  refine ⟨List.mem_of_find?_eq_some h, ?_⟩
  have := List.find?_some h
  simpa using this

theorem lookupTask_eq_of_mem {tasks : List ORTask} {i : ℕ} {t : ORTask}
    (hnd : (tasks.map ORTask.id).Nodup) (ht : t ∈ tasks) (hid : t.id = i) :
    lookupTask tasks i = some t := by
  induction tasks with
  | nil => cases ht
  | cons h0 r ih =>
    simp only [List.map_cons, List.nodup_cons] at hnd
    rcases List.mem_cons.mp ht with rfl | ht2
    · simp [lookupTask, List.find?, hid]
    · have hne : (h0.id == i) = false := by
        simp only [beq_eq_false_iff_ne, ne_eq]
        intro he
        exact hnd.1 (List.mem_map.mpr ⟨t, ht2, by rw [hid, he]⟩)
      simp only [lookupTask, List.find?, hne]
      exact ih hnd.2 ht2

theorem mem_buildDeps_intro {dmap : List (ℕ × List ℕ)} {tasks : List ORTask}
    {a b : ℕ} {l : List ℕ} {ta tb : ORTask}
    (hentry : (a, l) ∈ dmap) (hb : b ∈ l)
    (hla : lookupTask tasks a = some ta) (hlb : lookupTask tasks b = some tb) :
    (ta, tb) ∈ buildDeps dmap tasks := by
  unfold buildDeps
  refine List.mem_flatMap.mpr ⟨(a, l), hentry, ?_⟩
  simp only [hla]
  exact List.mem_filterMap.mpr ⟨b, hb, by rw [hlb]; rfl⟩

theorem mem_buildDeps_elim {dmap : List (ℕ × List ℕ)} {tasks : List ORTask}
    {p : ORTask × ORTask} (h : p ∈ buildDeps dmap tasks) :
    p.1 ∈ tasks ∧ p.2 ∈ tasks := by
  unfold buildDeps at h
  rcases List.mem_flatMap.mp h with ⟨entry, _, hp⟩
  revert hp
  cases hlk : lookupTask tasks entry.1 with
  | none => intro hp; cases hp
  | some ta =>
    intro hp
    rcases List.mem_filterMap.mp hp with ⟨depId, _, hdep⟩
    cases hlk2 : lookupTask tasks depId with
    | none => rw [hlk2] at hdep; cases hdep
    | some tb =>
      rw [hlk2] at hdep
      injection hdep with hdep
      subst hdep
      exact ⟨(lookupTask_mem hlk).1, (lookupTask_mem hlk2).1⟩

/-! ## Claims -/

/-- C2: whenever the scheduler returns status "Feasible" (i.e. the solver found
an assignment satisfying the built model), every returned assignment
`{task_id, start, end}` satisfies `period_start ≤ start`, `end ≤ period_end`,
and `end − start` equals that task's duration in minutes exactly.  The returned
entries are exactly `(t.id, decStart, decEnd)` for the wrappers `t` of the
model. -/
theorem C2_feasible_schedule_within_horizon
    (ts : List Task) (events : List CalendarEvent) (dmap : List (ℕ × List ℕ))
    (ps pe wsh weh : ℤ) (m : BuiltModel) (σ : ℕ → ℤ) (ot : ORTask)
    (hm : buildModel ts events dmap ps pe wsh weh = Except.ok m)
    (hσ : Sat m σ) (hot : ot ∈ m.tasks) :
    ps ≤ decStart m σ ot ∧ decEnd m σ ot ≤ pe ∧
    decEnd m σ ot - decStart m σ ot = ot.duration_min * usPerMin := by
  obtain ⟨hlt, hH, hps, hHeq, htasks, -, -, -⟩ := buildModel_ok hm
  obtain ⟨-, hdom, -, -, -, -, -⟩ := hσ
  have hmem := hot
  rw [htasks] at hmem
  obtain ⟨t0, ht0, hoteq⟩ := mem_buildTasks hmem
  obtain ⟨h1, h2, h3, h4⟩ := hdom ot hot
  have hlo : 0 ≤ ot.startLo := by rw [hoteq]; exact mkORTask_startLo_nonneg t0 ps _
  have hhi : ot.endHi ≤ minutesBetween ps pe := by
    rw [hoteq]; exact mkORTask_endHi_le t0 ps _ (le_of_lt hH)
  have hmul : minutesBetween ps pe * usPerMin ≤ pe - ps :=
    minutesBetween_mul_le (le_of_lt hlt)
  have hu : (0:ℤ) < usPerMin := by norm_num [usPerMin]
  refine ⟨?_, ?_, by simp [decEnd]⟩
  · have hσ0 : 0 ≤ σ ot.id := le_trans hlo h1
    have hp : 0 ≤ σ ot.id * usPerMin := mul_nonneg hσ0 (le_of_lt hu)
    simp only [decStart, hps]
    omega
  · have hend : σ ot.id + ot.duration_min ≤ minutesBetween ps pe := le_trans h4 hhi
    have hmm : (σ ot.id + ot.duration_min) * usPerMin ≤
        minutesBetween ps pe * usPerMin :=
      mul_le_mul_of_nonneg_right hend (le_of_lt hu)
    have hexp : (σ ot.id + ot.duration_min) * usPerMin =
        σ ot.id * usPerMin + ot.duration_min * usPerMin := by ring
    simp only [decEnd, decStart, hps]
    omega

/-- C6: for every task in the batch with a non-null `due_by`: if
`due_by < period_start` the model is marked infeasible; else if the
minute-projected due date is smaller than the task's duration the model is
marked infeasible; otherwise `end(T) ≤ due_by_min` is enforced, so any feasible
assignment has the task end at or before its projected due date. -/
theorem C6_due_date_constraints
    (ts : List Task) (events : List CalendarEvent) (dmap : List (ℕ × List ℕ))
    (ps pe wsh weh : ℤ) (m : BuiltModel) (t : Task) (d : ℤ)
    (hm : buildModel ts events dmap ps pe wsh weh = Except.ok m)
    (hnd : (ts.map Task.id).Nodup) (ht : t ∈ ts) (hd : t.due_by = some d) :
    (d < ps → m.forcedInfeasible = true) ∧
    (ps ≤ d → minutesBetween ps d < t.duration → m.forcedInfeasible = true) ∧
    (∀ σ, Sat m σ → σ t.id + t.duration ≤ minutesBetween ps d) := by
  obtain ⟨hlt, hH, hps, hHeq, htasks, -, -, hflag⟩ := buildModel_ok hm
  have hmaps : m.tasks = ts.map (fun u => mkORTask u ps (minutesBetween ps pe)) := by
    rw [htasks, buildTasks_eq_map _ _ hnd]
  have hwrap : mkORTask t ps (minutesBetween ps pe) ∈ m.tasks := by
    rw [hmaps]; exact List.mem_map.mpr ⟨t, ht, rfl⟩
  refine ⟨?_, ?_, ?_⟩
  · intro hdlt
    have hdff : dueForcedFlag m.tasks = true := by
      unfold dueForcedFlag
      rw [List.any_eq_true]
      refine ⟨mkORTask t ps (minutesBetween ps pe), hwrap, ?_⟩
      rw [mkORTask_due, dueMinOf_early hd hdlt]
      simp
    rw [hflag, hdff]
    rfl
  · intro hge hsmall
    have hdff : dueForcedFlag m.tasks = true := by
      unfold dueForcedFlag
      rw [List.any_eq_true]
      refine ⟨mkORTask t ps (minutesBetween ps pe), hwrap, ?_⟩
      rw [mkORTask_due, dueMinOf_late hd hge, mkORTask_duration]
      simp [hsmall]
    rw [hflag, hdff]
    rfl
  · intro σ hSat
    obtain ⟨hflagf, -, -, -, -, hdue, -⟩ := hSat
    have hdff : dueForcedFlag m.tasks = false := by
      rw [hflag] at hflagf
      exact (Bool.or_eq_false_iff.mp hflagf).1
    by_cases hdlt : d < ps
    · exfalso
      unfold dueForcedFlag at hdff
      rw [List.any_eq_false] at hdff
      have hcontra := hdff (mkORTask t ps (minutesBetween ps pe)) hwrap
      rw [mkORTask_due, dueMinOf_early hd hdlt] at hcontra
      simp at hcontra
    · push_neg at hdlt
      have hmb0 : 0 ≤ minutesBetween ps d := minutesBetween_nonneg hdlt
      have hnotsmall :
          ¬ minutesBetween ps d < (mkORTask t ps (minutesBetween ps pe)).duration_min := by
        intro hsm
        unfold dueForcedFlag at hdff
        rw [List.any_eq_false] at hdff
        have hcontra := hdff (mkORTask t ps (minutesBetween ps pe)) hwrap
        rw [mkORTask_due, dueMinOf_late hd hdlt] at hcontra
        simp [hsm] at hcontra
      have hok := hdue (mkORTask t ps (minutesBetween ps pe)) hwrap
      unfold dueOK at hok
      have hres := hok (minutesBetween ps d)
        (by simp [mkORTask_due, dueMinOf_late hd hdlt]) (by omega) hnotsmall
      simpa [mkORTask_id, mkORTask_duration] using hres

/-- C7: for a dependency edge (A → B) of the dependency map, if both A and B
are in the scheduling batch then `start(A) ≥ end(B)` holds in every feasible
assignment, and if B is absent from the batch the edge contributes no
constraint at all (no dependency pair of the built model has B as its
dependency). -/
theorem C7_dependency_constraints
    (ts : List Task) (events : List CalendarEvent) (dmap : List (ℕ × List ℕ))
    (ps pe wsh weh : ℤ) (a b : ℕ) (l : List ℕ) (m : BuiltModel)
    (hm : buildModel ts events dmap ps pe wsh weh = Except.ok m)
    (hentry : (a, l) ∈ dmap) (hb : b ∈ l) :
    (∀ ta ∈ m.tasks, ta.id = a → ∀ tb ∈ m.tasks, tb.id = b →
      ∀ σ, Sat m σ → σ b + tb.duration_min ≤ σ a) ∧
    ((∀ t ∈ ts, t.id ≠ b) → ∀ p ∈ m.deps, p.2.id ≠ b) := by
  obtain ⟨hlt, hH, hps, hHeq, htasks, hdeps, -, -⟩ := buildModel_ok hm
  have hnodup : (m.tasks.map ORTask.id).Nodup := by
    rw [htasks]; exact buildTasks_nodup ts ps _
  constructor
  · intro ta hta hida tb htb hidb σ hSat
    obtain ⟨-, -, -, -, hdep, -, -⟩ := hSat
    have hla : lookupTask m.tasks a = some ta := lookupTask_eq_of_mem hnodup hta hida
    have hlb : lookupTask m.tasks b = some tb := lookupTask_eq_of_mem hnodup htb hidb
    have hpair : (ta, tb) ∈ m.deps := by
      rw [hdeps]; exact mem_buildDeps_intro hentry hb hla hlb
    have hres := hdep (ta, tb) hpair
    rw [hida, hidb] at hres
    exact hres
  · intro habs p hp
    rw [hdeps] at hp
    have hmemts := (mem_buildDeps_elim hp).2
    rw [htasks] at hmemts
    obtain ⟨t0, ht0, heq⟩ := mem_buildTasks hmemts
    rw [heq, mkORTask_id]
    exact habs t0 ht0

/-! ### Witness scenarios for the confirmed claims -/

/-- One 60-minute task, horizon one Monday, work 9–17. -/
def tsW2 : List Task := [⟨0, 60, none, none, none, none, none⟩]

def mW2 : BuiltModel := ((buildModel tsW2 [] [] 0 usPerDay 9 17).toOption).getD default

def sigmaW2 : ℕ → ℤ := fun _ => 540

def otW2 : ORTask := ⟨0, 60, 0, 1380, 60, 1440, none, none, none, none⟩

/-- Witness for C2: the scenario's task placed at Monday 9:00 satisfies the
model, and the theorem yields its horizon bounds and exact duration. -/
theorem C2_witness :
    (0:ℤ) ≤ decStart mW2 sigmaW2 otW2 ∧ decEnd mW2 sigmaW2 otW2 ≤ usPerDay ∧
    decEnd mW2 sigmaW2 otW2 - decStart mW2 sigmaW2 otW2 =
      otW2.duration_min * usPerMin :=
  C2_feasible_schedule_within_horizon tsW2 [] [] 0 usPerDay 9 17 mW2 sigmaW2 otW2
    rfl (by decide) (by decide)

/-- One 60-minute task due Tuesday 00:00, horizon Monday–Tuesday, work 9–17. -/
def tW6 : Task := ⟨0, 60, some (combine 1 0), none, none, none, none⟩

def tsW6 : List Task := [tW6]

def mW6 : BuiltModel :=
  ((buildModel tsW6 [] [] 0 (combine 2 0) 9 17).toOption).getD default

def sigmaW6 : ℕ → ℤ := fun _ => 540

/-- Witness for C6: in the feasible scenario the task ends at or before its
projected due date. -/
theorem C6_witness :
    sigmaW6 tW6.id + tW6.duration ≤ minutesBetween 0 (combine 1 0) :=
  (C6_due_date_constraints tsW6 [] [] 0 (combine 2 0) 9 17 mW6 tW6 (combine 1 0)
    rfl (by decide) (by decide) rfl).2.2 sigmaW6 (by decide)

/-- Two 60-minute tasks with an edge task 0 → task 1, horizon one Monday. -/
def tsW7 : List Task :=
  [⟨0, 60, none, none, none, none, none⟩, ⟨1, 60, none, none, none, none, none⟩]

def dmW7 : List (ℕ × List ℕ) := [(0, [1])]

def mW7 : BuiltModel :=
  ((buildModel tsW7 [] dmW7 0 usPerDay 9 17).toOption).getD default

def otW7a : ORTask := ⟨0, 60, 0, 1380, 60, 1440, none, none, none, none⟩

def otW7b : ORTask := ⟨1, 60, 0, 1380, 60, 1440, none, none, none, none⟩

def sigmaW7 : ℕ → ℤ := fun i => if i = 0 then 600 else 540

/-- Witness for C7: with both edge endpoints in the batch, the dependent task
starts no earlier than its dependency ends. -/
theorem C7_witness : sigmaW7 1 + otW7b.duration_min ≤ sigmaW7 0 :=
  (C7_dependency_constraints tsW7 [] dmW7 0 usPerDay 9 17 0 1 [1] mW7
    rfl (by decide) (by decide)).1 otW7a (by decide) rfl otW7b (by decide) rfl
    sigmaW7 (by decide)

/-! ### C1: the work-envelope invariant fails on the last minute of a day

The day loop of step 3 ends each forbidden segment at
`datetime.combine(date, time.max)`, i.e. 23:59:59.999999, and
`int(total_seconds / 60)` truncates this to minute 1439 of the day — so minute
`[23:59, 24:00)` of every day, weekends included, is left schedulable.  With a
Saturday-only horizon and a 1-minute task, the model is satisfiable and its
only satisfying assignment starts the task on Saturday 23:59. -/

/-- One 1-minute task. -/
def tsC1 : List Task := [⟨0, 1, none, none, none, none, none⟩]

/-- Saturday 00:00 (epoch day 5). -/
def psC1 : ℤ := combine 5 0

/-- Sunday 00:00. -/
def peC1 : ℤ := combine 6 0

def mC1 : BuiltModel := ((buildModel tsC1 [] [] psC1 peC1 9 17).toOption).getD default

def otC1 : ORTask := ⟨0, 1, 0, 1439, 1, 1440, none, none, none, none⟩

/-- C1 fails on the code (code bug): over the Saturday-only horizon the model
built by the scheduler is satisfiable — the solver returns "Feasible" — and
every satisfying assignment starts the task at minute 1439, i.e. Saturday
23:59, which is a weekend day (weekday 5), not a weekday inside the work
envelope. -/
theorem C1_weekend_last_minute_schedulable :
    buildModel tsC1 [] [] psC1 peC1 9 17 = Except.ok mC1 ∧
    otC1 ∈ mC1.tasks ∧
    Sat mC1 (fun _ => 1439) ∧
    (∀ σ, Sat mC1 σ → σ 0 = 1439) ∧
    weekday (dateOf (decStart mC1 (fun _ => 1439) otC1)) = 5 := by
  refine ⟨rfl, by decide, by decide, ?_, by decide⟩
  intro σ hσ
  obtain ⟨-, hdom, hzone, -, -, -, -⟩ := hσ
  have h1 : (0:ℤ) ≤ σ 0 ∧ σ 0 ≤ 1439 ∧ (1:ℤ) ≤ σ 0 + 1 ∧ σ 0 + 1 ≤ 1440 :=
    hdom otC1 (by decide)
  have h2 : σ 0 + 1 ≤ 0 ∨ (1439:ℤ) ≤ σ 0 := hzone otC1 (by decide) (0, 1439) (by decide)
  omega

/-! ### C3: a windowless recurring instance is not pinned to its instance date

A derived task with an `instance_date` but no complete window pair skips step 7
entirely; the only date-related constraint it gets is `end ≤ due_by_min`
(end of its instance date).  Horizon Monday–Wednesday, the instance is dated
Wednesday (day 2), and a calendar event blocks Wednesday's entire work day, so
the model is satisfiable and every satisfying assignment places the task
strictly before its instance date. -/

/-- A 60-minute recurring instance for Wednesday (day 2) with no window,
due at the end of day 2 — exactly what `create_tasks` emits for a windowless
template. -/
def tsC3 : List Task := [⟨0, 60, some (combine 2 timeMax), none, none, some 2, some 7⟩]

/-- A calendar event covering Wednesday 9:00–17:00. -/
def evsC3 : List CalendarEvent :=
  [⟨combine 2 (9 * usPerHour), combine 2 (17 * usPerHour)⟩]

def peC3 : ℤ := combine 3 0

def mC3 : BuiltModel :=
  ((buildModel tsC3 evsC3 [] 0 peC3 9 17).toOption).getD default

def otC3 : ORTask := ⟨0, 60, 0, 4260, 60, 4320, some 4319, none, none, some 2⟩

/-- C3 fails on the code (code bug): the model for the Wednesday instance is
satisfiable (status "Feasible") with the task placed Monday 9:00, and in fact
every satisfying assignment starts the task strictly before Wednesday — the
task never lands on its `instance_date`. -/
theorem C3_windowless_instance_not_pinned :
    buildModel tsC3 evsC3 [] 0 peC3 9 17 = Except.ok mC3 ∧
    otC3 ∈ mC3.tasks ∧ otC3.instance_date = some 2 ∧
    Sat mC3 (fun _ => 540) ∧
    dateOf (decStart mC3 (fun _ => 540) otC3) = 0 ∧
    (∀ σ, Sat mC3 σ → decStart mC3 σ otC3 < combine 2 0) := by
  refine ⟨rfl, by decide, rfl, by decide, by decide, ?_⟩
  intro σ hσ
  obtain ⟨-, hdom, hzone, -, -, -, -⟩ := hσ
  have h1 : (0:ℤ) ≤ σ 0 ∧ σ 0 ≤ 4260 ∧ (60:ℤ) ≤ σ 0 + 60 ∧ σ 0 + 60 ≤ 4320 :=
    hdom otC3 (by decide)
  have h2 : σ 0 + 60 ≤ 2880 ∨ (4319:ℤ) ≤ σ 0 :=
    hzone otC3 (by decide) (2880, 4319) (by decide)
  have hps3 : mC3.ps = 0 := rfl
  have hid3 : otC3.id = 0 := rfl
  simp only [decStart, hps3, hid3, usPerMin, combine, usPerDay]
  omega

/-! ### C5: dependency cycles are not detected -/

/-- Two 60-minute tasks. -/
def tsC5 : List Task :=
  [⟨0, 60, none, none, none, none, none⟩, ⟨1, 60, none, none, none, none, none⟩]

/-- A cyclic dependency map: 0 depends on 1 and 1 depends on 0. -/
def dmC5 : List (ℕ × List ℕ) := [(0, [1]), (1, [0])]

def mC5 : BuiltModel :=
  ((buildModel tsC5 [] dmC5 0 usPerDay 9 17).toOption).getD default

def otC5a : ORTask := ⟨0, 60, 0, 1380, 60, 1440, none, none, none, none⟩

def otC5b : ORTask := ⟨1, 60, 0, 1380, 60, 1440, none, none, none, none⟩

/-- C5 counterexample: the dependency edge set contains a cycle, yet model
construction succeeds — no fatal error is raised before (or instead of)
building, and the scheduler proceeds to solve the model built from the cyclic
graph. -/
theorem C5_cycle_not_detected :
    ((0, [1]) ∈ dmC5 ∧ (1, [0]) ∈ dmC5) ∧
    buildModel tsC5 [] dmC5 0 usPerDay 9 17 = Except.ok mC5 :=
  ⟨by decide, rfl⟩

/-- C5 amended: cycles are not detected; the scheduler builds the model from
the cyclic graph — adding `start(A) ≥ end(B)` for both cycle edges — and
proceeds to the solver, and with positive durations the two cycle constraints
are contradictory: no assignment satisfies the model, so the run ends with the
solver reporting Infeasible rather than a pre-build fatal error. -/
theorem C5_cycle_builds_and_solves :
    buildModel tsC5 [] dmC5 0 usPerDay 9 17 = Except.ok mC5 ∧
    (otC5a, otC5b) ∈ mC5.deps ∧ (otC5b, otC5a) ∈ mC5.deps ∧
    (∀ σ, ¬ Sat mC5 σ) := by
  refine ⟨rfl, by decide, by decide, ?_⟩
  intro σ hσ
  obtain ⟨-, -, -, -, hdep, -, -⟩ := hσ
  have h1 : σ 1 + 60 ≤ σ 0 := hdep (otC5a, otC5b) (by decide)
  have h2 : σ 0 + 60 ≤ σ 1 := hdep (otC5b, otC5a) (by decide)
  omega

/-! ### C4: the recurrence expander -/

theorem filterMap_ite {α β : Type} (p : α → Prop) [DecidablePred p] (f : α → β)
    (l : List α) :
    l.filterMap (fun a => if p a then some (f a) else none) =
      (l.filter (fun a => decide (p a))).map f := by
  induction l with
  | nil => rfl
  | cons a l ih =>
    by_cases h : p a
    · simp [List.filterMap_cons, List.filter_cons, h, ih]
    · simp [List.filterMap_cons, List.filter_cons, h, ih]

/-- A weekly template with an overnight window 22:00 → 02:00 recurring on
Mondays. -/
def evC4 : RecurringEvent := ⟨7, 30, some (22 * usPerHour), some (2 * usPerHour), [0]⟩

/-- C4 counterexample: for a template whose window is overnight
(window end < window start), the task expanded for Monday (day 0) gets
`due_by` equal to the end of day 0 itself — not the end of day 1 as the claim's
`effective_date = d + 1` rule requires. -/
theorem C4_overnight_due_by_counterexample :
    evC4.time_window_start = some (22 * usPerHour) ∧
    evC4.time_window_end = some (2 * usPerHour) ∧
    (2 * usPerHour : ℤ) < 22 * usPerHour ∧
    (create_tasks evC4 (combine 0 0) (combine 1 0)).map Task.due_by =
      [some (combine 0 timeMax)] ∧
    combine 0 timeMax ≠ combine 1 timeMax := by
  refine ⟨rfl, rfl, by norm_num [usPerHour], by decide, by decide⟩

/-- C4 amended: for every RecurringEvent and horizon, the expander emits
exactly one task per date `d` with `start.date ≤ d < end.date` and
`d.weekday ∈ recurrence`, each with `instance_date = d`,
`recurring_parent_id` the template's id, the window copied, and `due_by` the
end of day `d` itself (23:59:59.999999 of `d`) — the effective date is always
`d`, never `d + 1`, even for overnight windows. -/
theorem C4_recurrence_expansion (ev : RecurringEvent) (s e : ℤ) :
    create_tasks ev s e =
      ((dateRange (dateOf s) (dateOf e)).filter
        (fun d => decide (weekday d ∈ ev.recurrence))).map (expandedTask ev) := by
  unfold create_tasks
  exact filterMap_ite _ _ _

/-! ### C8: correctness of the interval merge -/

/-- C8: `merge_overlapping_intervals` maps the empty input to the empty output,
and for every input list the output is sorted by start, its intervals are
pairwise disjoint and non-adjacent (each ends strictly before the next starts),
and it covers exactly the same integer points as the input. -/
theorem C8_merge_correct :
    merge_overlapping_intervals ([] : List (ℤ × ℤ)) = [] ∧
    ∀ l : List (ℤ × ℤ),
      List.Sorted startLE (merge_overlapping_intervals l) ∧
      List.Pairwise (fun a b : ℤ × ℤ => a.2 < b.1) (merge_overlapping_intervals l) ∧
      ∀ x : ℤ, covers (merge_overlapping_intervals l) x ↔ covers l x := by
  refine ⟨rfl, fun l => ?_⟩
  by_cases hl : l = []
  · subst hl
    exact ⟨List.sorted_nil, List.Pairwise.nil, fun x => Iff.rfl⟩
  · have hglue : merge_overlapping_intervals l =
        match List.insertionSort startLE l with
        | [] => []
        | c :: rest => mergeLoop c rest := by
      unfold merge_overlapping_intervals merge_sort_effect
      rw [if_neg hl]
    have hperm := List.perm_insertionSort startLE l
    have hsort := List.sorted_insertionSort startLE l
    cases hInst : List.insertionSort startLE l with
    | nil =>
      exfalso
      rw [hInst] at hperm
      exact hl (List.Perm.eq_nil hperm.symm)
    | cons c rest =>
      rw [hInst] at hperm hsort
      rw [hglue, hInst]
      exact ⟨mergeLoop_sorted rest c hsort, mergeLoop_separated rest c hsort,
        fun x => (mergeLoop_covers rest c hsort x).trans (covers_perm hperm x)⟩

/-! ### C9: status messages -/

/-- C9 counterexample: when the solver exceeds its hard time bound without a
solution it returns status `UNKNOWN`, and `generate_schedule` then returns the
message "Solver status: UNKNOWN" with no assignments — never the message
"Timeout" that the claim states. -/
theorem C9_timeout_status_counterexample :
    generate_schedule default CpStatus.unknown (fun _ => 0) =
      (none, "Solver status: UNKNOWN") ∧
    (generate_schedule default CpStatus.unknown (fun _ => 0)).2 ≠ "Timeout" :=
  ⟨rfl, by decide⟩

/-- C9 amended: `generate_schedule` returns a pair whose status message is
drawn from `{"Feasible", "Infeasible"} ∪ {"Solver status: <name>"}` (no
"Timeout" and no "Error: …" message exists); when the solver times out without
a solution (status `UNKNOWN`) the result is
`(None, "Solver status: UNKNOWN")`, and assignments are returned only with
"Feasible". -/
theorem C9_status_message_set (m : BuiltModel) (st : CpStatus) (σ : ℕ → ℤ) :
    ((generate_schedule m st σ).2 = "Feasible" ∨
      (generate_schedule m st σ).2 = "Infeasible" ∨
      (generate_schedule m st σ).2 = "Solver status: " ++ statusName st) ∧
    generate_schedule m CpStatus.unknown σ = (none, "Solver status: UNKNOWN") ∧
    ((generate_schedule m st σ).1 = none ∨ (generate_schedule m st σ).2 = "Feasible") := by
  refine ⟨?_, rfl, ?_⟩ <;> cases st <;>
    simp [generate_schedule, solveResult, statusName]

/-! ### C10: the in-place sort side effect -/

/-- C10: for every non-empty input list, the caller's list object after a call
to `merge_overlapping_intervals` is sorted ascending by interval start and is a
permutation of the original elements (reordered in place by the stable sort; no
tuple is modified), even though the function also returns a fresh merged
list. -/
theorem C10_in_place_sort_effect (l : List (ℤ × ℤ)) (hl : l ≠ []) :
    List.Sorted startLE (merge_sort_effect l) ∧ (merge_sort_effect l).Perm l := by
  unfold merge_sort_effect
  rw [if_neg hl]
  exact ⟨List.sorted_insertionSort startLE l, List.perm_insertionSort startLE l⟩

/-- Witness for C10 on a concrete two-element list. -/
theorem C10_witness :
    (([(3, 4), (1, 2)] : List (ℤ × ℤ)) ≠ []) ∧
    (List.Sorted startLE (merge_sort_effect [(3, 4), (1, 2)]) ∧
      (merge_sort_effect [(3, 4), (1, 2)]).Perm [(3, 4), (1, 2)]) :=
  ⟨by decide, C10_in_place_sort_effect _ (by decide)⟩

end Chewy
